import Mathlib

/-!
Verification development for the `mascot-agent` credential broker.

The development embeds the credential lifecycle core of the repository:
the `EncryptionService` (AES-256-CBC with a hex-encoded `iv:ciphertext`
wire format, `src/plugins/plugin-connections/src/services/auth.service.ts`),
the credential store upsert/lookup/revoke operations
(`DatabaseService` in the same file and `AuthService` in
`src/src/services/auth.service.ts`), the LRU session/temp-credential
cache (`src/unnamed/part_007`), and the Twitter OAuth route handlers
(`src/src/routes/twitter-auth.ts`, `src/unnamed/part_003`).

Strings handled by the cipher are modelled as their byte sequences
(`List (Fin 256)`).  The AES block primitive itself lives in Node's
`crypto` module, outside the repository; it is abstracted as a
`BlockCipher`: any keyed 16-byte block permutation.  Everything the
repository's own code does around the primitive (key truncation, IV
handling, CBC chaining, PKCS#7 padding as performed by
`createCipheriv`/`createDecipheriv` for `aes-256-cbc`, hex encoding,
the `iv:ct` framing and its parsing) is modelled concretely.
-/

namespace MascotAgent

/-- A byte. -/
abbrev Byte := Fin 256

/-- A byte string. -/
abbrev Bytes := List Byte

/-- Bytewise xor. -/
def bxor (a b : Byte) : Byte :=
  ⟨a.val ^^^ b.val, Nat.xor_lt_two_pow (n := 8) a.isLt b.isLt⟩

/-- Blockwise xor (`zipWith`): used for CBC chaining. -/
def xorBlock (a b : Bytes) : Bytes := List.zipWith bxor a b

/-- The byte of the lowercase hex digit for `n % 16`, as produced by
`Buffer.toString("hex")`. -/
def hexDigitByte (n : Nat) : Byte :=
  if n % 16 < 10 then ⟨48 + n % 16, by omega⟩ else ⟨87 + n % 16, by omega⟩

/-- Hex encoding of a byte string (`Buffer.toString("hex")`). -/
def bytesToHex : Bytes → Bytes
  | [] => []
  | b :: rest => hexDigitByte (b.val / 16) :: hexDigitByte (b.val % 16) :: bytesToHex rest

/-- Value of a hex digit byte, if it is one (0-9, a-f, A-F). -/
def hexVal (c : Byte) : Option Nat :=
  if 48 ≤ c.val ∧ c.val ≤ 57 then some (c.val - 48)
  else if 97 ≤ c.val ∧ c.val ≤ 102 then some (c.val - 87)
  else if 65 ≤ c.val ∧ c.val ≤ 70 then some (c.val - 55)
  else none

/-- Node's lenient hex decoding (`Buffer.from(s, "hex")`): decodes byte
pairs, stopping at the first invalid pair or unpaired trailing digit. -/
def bufferFromHex : Bytes → Bytes
  | c1 :: c2 :: rest =>
    match hexVal c1, hexVal c2 with
    | some h, some l => ⟨(16 * h + l) % 256, by omega⟩ :: bufferFromHex rest
    | _, _ => []
  | _ => []

/-- The byte of the `:` delimiter used by the `iv:ciphertext` framing. -/
def colonByte : Byte := ⟨58, by omega⟩

/-- JavaScript `String.prototype.split` on a one-byte separator, on byte
strings: `"".split(d) = [""]`, `"a:b".split(":") = ["a","b"]`. -/
def splitOnByte (d : Byte) : Bytes → List Bytes
  | [] => [[]]
  | c :: rest =>
    match splitOnByte d rest with
    | [] => if c = d then [[], []] else [[c]]
    | first :: others =>
      if c = d then [] :: first :: others else (c :: first) :: others

/-- PKCS#7 pad length for a message of `n` bytes (block size 16). -/
def padLen (n : Nat) : Nat := 16 - n % 16

/-- PKCS#7 padding as applied by `createCipheriv` for `aes-256-cbc`. -/
def pkcs7pad (data : Bytes) : Bytes :=
  data ++ List.replicate (padLen data.length) ⟨padLen data.length % 256, by omega⟩

/-- PKCS#7 unpadding with full validation, as performed by
`decipher.final()`: `none` models the padding error it throws. -/
def pkcs7unpad (data : Bytes) : Option Bytes :=
  match data.getLast? with
  | none => none
  | some p =>
    if p.val = 0 ∨ 16 < p.val then none
    else if data.length < p.val then none
    else if data.drop (data.length - p.val) = List.replicate p.val p then
      some (data.take (data.length - p.val))
    else none

/-- Structural worker for `chunks16`: the fuel (first argument) bounds
the input length, so the zero-fuel branch is unreachable. -/
def chunks16Go : Nat → Bytes → List Bytes
  | _, [] => []
  | 0, _ => []
  | fuel + 1, l => l.take 16 :: chunks16Go fuel (l.drop 16)

/-- Split a byte string into 16-byte blocks. -/
def chunks16 (l : Bytes) : List Bytes := chunks16Go l.length l

/-- The external AES-256 block primitive (Node `crypto`), abstracted:
a keyed permutation of 16-byte blocks. -/
structure BlockCipher where
  enc : Bytes → Bytes → Bytes
  dec : Bytes → Bytes → Bytes
  enc_len : ∀ k b, b.length = 16 → (enc k b).length = 16
  dec_enc : ∀ k b, b.length = 16 → dec k (enc k b) = b

/-- CBC encryption of a block sequence with chaining value `iv`. -/
def cbcEncBlocks (C : BlockCipher) (k : Bytes) : Bytes → List Bytes → List Bytes
  | _, [] => []
  | iv, b :: rest =>
    let c := C.enc k (xorBlock iv b)
    c :: cbcEncBlocks C k c rest

/-- CBC decryption of a block sequence with chaining value `iv`. -/
def cbcDecBlocks (C : BlockCipher) (k : Bytes) : Bytes → List Bytes → List Bytes
  | _, [] => []
  | iv, c :: rest => xorBlock iv (C.dec k c) :: cbcDecBlocks C k c rest

/-- Whether encryption is enabled (`EncryptionService.isEnabled`):
a key is configured and has at least 32 characters. -/
def isEnabled (key : Option Bytes) : Bool :=
  match key with
  | none => false
  | some k => 32 ≤ k.length

/-- `EncryptionService.encrypt`.  `key` is the configured
`AUTH_ENCRYPTION_KEY` (or `none`); `iv` is the fresh random IV produced
by `randomBytes(16)`, passed explicitly since it is the call's only
nondeterminism; `data` is the plaintext.  When encryption is not
enabled the plaintext passes through unchanged; otherwise the key is
truncated with `slice(0, 32)` and the result is
`iv.toString("hex") + ":" + ciphertext_hex`. -/
def encrypt (C : BlockCipher) (key : Option Bytes) (iv data : Bytes) : Bytes :=
  match key with
  | none => data
  | some k =>
    if k.length < 32 then data
    else
      let kb := k.take 32
      let ct := (cbcEncBlocks C kb iv (chunks16 (pkcs7pad data))).flatten
      bytesToHex iv ++ colonByte :: bytesToHex ct

/-- `EncryptionService.decrypt`.  `none` models the thrown
`Error("Decryption failed")` (the `DecryptionError`): raised when the
input does not split into exactly two `:`-separated parts, when
`createDecipheriv` rejects the IV (not 16 bytes), or when the cipher
data is empty, not block-aligned, or fails the padding check in
`decipher.final()`.  When encryption is not enabled the input passes
through unchanged. -/
def decrypt (C : BlockCipher) (key : Option Bytes) (s : Bytes) : Option Bytes :=
  match key with
  | none => some s
  | some k =>
    if k.length < 32 then some s
    else
      let kb := k.take 32
      match splitOnByte colonByte s with
      | [ivHex, ctHex] =>
        let iv := bufferFromHex ivHex
        let ct := bufferFromHex ctHex
        if iv.length = 16 ∧ ct ≠ [] ∧ ct.length % 16 = 0 then
          pkcs7unpad (cbcDecBlocks C kb iv (chunks16 ct)).flatten
        else none
      | _ => none

/-- The identity block permutation: a concrete `BlockCipher` instance
used to evaluate the cipher layer on concrete inputs. -/
def idCipher : BlockCipher where
  enc := fun _ b => b
  dec := fun _ b => b
  enc_len := fun _ _ h => h
  dec_enc := fun _ _ _ => rfl

/-- The UTF-8-independent byte view of a string (code points mod 256);
all strings the model feeds through it are ASCII. -/
def strBytes (s : String) : Bytes := s.data.map (fun c => ⟨c.toNat % 256, by omega⟩)

/-! ## Credential store

Model of the `service_credentials` table and the operations on it.
A row keeps the columns the verified operations read or write
(`agent_id`, `service_name`, `credentials`, `is_active`, `updated_at`);
`id`, `status`, `expires_at` and `created_at` are never consulted by
any of the verified code paths and are omitted.  The `UNIQUE (agent_id,
service_name)` constraint appears as the `wfStore` invariant. -/

/-- The `service_type` enum of the schema. -/
inductive ServiceName where
  | twitter | discord | telegram | github | google | facebook
  | linkedin | instagram | tiktok | youtube | other
deriving DecidableEq

/-- The SQL enum literal for a service name (used in cache keys). -/
def ServiceName.str : ServiceName → String
  | .twitter => "twitter"
  | .discord => "discord"
  | .telegram => "telegram"
  | .github => "github"
  | .google => "google"
  | .facebook => "facebook"
  | .linkedin => "linkedin"
  | .instagram => "instagram"
  | .tiktok => "tiktok"
  | .youtube => "youtube"
  | .other => "other"

/-- A row of `service_credentials`. -/
structure CredRow where
  agentId : String
  serviceName : ServiceName
  credentials : Bytes
  isActive : Bool
  updatedAt : Nat
deriving DecidableEq

/-- The credential table state. -/
abbrev Store := List CredRow

/-- The `agent_id = a AND service_name = s` condition. -/
def rowMatches (a : String) (s : ServiceName) (r : CredRow) : Bool :=
  r.agentId == a && r.serviceName == s

/-- All rows for one (agent, service) pair. -/
def rowsFor (st : Store) (a : String) (s : ServiceName) : Store :=
  st.filter (rowMatches a s)

/-- All *active* rows for one (agent, service) pair. -/
def activeRowsFor (st : Store) (a : String) (s : ServiceName) : Store :=
  st.filter (fun r => rowMatches a s r && r.isActive)

/-- The `UNIQUE (agent_id, service_name)` constraint of the schema:
at most one row per (agent, service) pair. -/
def wfStore (st : Store) : Prop :=
  ∀ a s, (rowsFor st a s).length ≤ 1

/-- `SELECT ... WHERE agent_id = a AND service_name = s AND is_active
LIMIT 1`: the lookup shared by both `getCredentials` variants. -/
def findActive (st : Store) (a : String) (s : ServiceName) : Option CredRow :=
  (st.filter (fun r => rowMatches a s r && r.isActive)).head?

/-- `DatabaseService.storeCredentials`
(src/plugins/plugin-connections/src/services/auth.service.ts 351-384):
`INSERT ... VALUES (..., isActive: true) ON CONFLICT (agent_id,
service_name) DO UPDATE SET credentials, updated_at`.  The conflict
branch updates `credentials` and `updated_at` only (it does not touch
`is_active`). -/
def dbStoreCredentials (st : Store) (a : String) (s : ServiceName)
    (creds : Bytes) (now : Nat) : Store :=
  if st.any (rowMatches a s) then
    st.map (fun r => if rowMatches a s r then
      { r with credentials := creds, updatedAt := now } else r)
  else
    st ++ [{ agentId := a, serviceName := s, credentials := creds,
             isActive := true, updatedAt := now }]

/-- `AuthService.storeCredentials` upsert
(src/src/services/auth.service.ts 100-142, also src/unnamed/part_007):
`UPDATE ... SET credentials, is_active = true, updated_at WHERE
agent_id = a AND service_name = s`; when `rowCount = 0`, `INSERT` a
fresh active row.  (In the sequential model each call is atomic, so the
race-retry branch of the source never fires.) -/
def credUpsertUpdateInsert (st : Store) (a : String) (s : ServiceName)
    (creds : Bytes) (now : Nat) : Store :=
  if st.any (rowMatches a s) then
    st.map (fun r => if rowMatches a s r then
      { r with credentials := creds, isActive := true, updatedAt := now } else r)
  else
    st ++ [{ agentId := a, serviceName := s, credentials := creds,
             isActive := true, updatedAt := now }]

/-- `DatabaseService.deleteCredentials`
(src/plugins/plugin-connections/src/services/auth.service.ts 424-442):
`DELETE ... WHERE agent_id = a AND service_name = s`. -/
def pcDeleteCredentials (st : Store) (a : String) (s : ServiceName) : Store :=
  st.filter (fun r => !(rowMatches a s r))

/-- Plugin-connections `AuthService.revokeCredentials`
(src/plugins/plugin-connections/src/services/auth.service.ts 91-96):
returns immediately for any service other than `twitter`, otherwise
hard-deletes the row. -/
def pcRevokeCredentials (st : Store) (a : String) (s : ServiceName) : Store :=
  if s ≠ .twitter then st
  else pcDeleteCredentials st a s

/-- Modelled from the spec: the `getCredentials` utility imported from
`../utils/credentials` by the plugin-connections `AuthService`; the
file itself is not among the sources, only its import and call sites.
Per the spec's derivation rule it returns the stored payload of the
active Credential Record for the (agent, service) pair, and null when
none exists. -/
def getCredentialsUtil (st : Store) (a : String) (s : ServiceName) : Option Bytes :=
  (findActive st a s).map (·.credentials)

/-- A connection status.  `username`/`userId` (extracted from the
decrypted payload for twitter) are not consulted by any verified claim
and are omitted. -/
structure ConnectionStatusR where
  serviceName : ServiceName
  isConnected : Bool
  lastChecked : Nat
deriving DecidableEq

/-- Plugin-connections `AuthService.getConnectionStatus`
(src/plugins/plugin-connections/src/services/auth.service.ts 98-106):
`isConnected = !!credentials` from the `getCredentials` utility. -/
def pcGetConnectionStatus (st : Store) (a : String) (s : ServiceName)
    (now : Nat) : ConnectionStatusR :=
  { serviceName := s, isConnected := (getCredentialsUtil st a s).isSome,
    lastChecked := now }

/-- The `try` block of `AuthService.getCredentials`
(src/src/services/auth.service.ts 154-190, src/unnamed/part_007
156-187): an unavailable database surfaces as an error, a missing
active row yields null, and a payload whose ciphertext the cipher
rejects raises the `DecryptionError` (`.error`).  JSON
deserialization of a successfully decrypted payload is the identity
on the serialized form and is elided. -/
def authGetCredentialsTry (C : BlockCipher) (key : Option Bytes)
    (db : Option Store) (a : String) (s : ServiceName) :
    Except String (Option Bytes) :=
  match db with
  | none => .error "Database not available"
  | some st =>
    match findActive st a s with
    | none => .ok none
    | some r =>
      match decrypt C key r.credentials with
      | none => .error "Decryption failed"
      | some pt => .ok (some pt)

/-- `AuthService.getCredentials` as observed by callers: the `catch`
clause logs and returns null, so every error of the `try` block
(including the `DecryptionError`) collapses to `none`. -/
def authGetCredentials (C : BlockCipher) (key : Option Bytes)
    (db : Option Store) (a : String) (s : ServiceName) : Option Bytes :=
  match authGetCredentialsTry C key db a s with
  | .ok v => v
  | .error _ => none

/-- `AuthService.getConnectionStatus`
(src/src/services/auth.service.ts 228-267, src/unnamed/part_007
225-275): connected exactly when `getCredentials` produced a payload;
every failure path (including store unavailability) reports
`isConnected = false`. -/
def authGetConnectionStatus (C : BlockCipher) (key : Option Bytes)
    (db : Option Store) (a : String) (s : ServiceName) (now : Nat) :
    ConnectionStatusR :=
  match authGetCredentials C key db a s with
  | none => { serviceName := s, isConnected := false, lastChecked := now }
  | some _ => { serviceName := s, isConnected := true, lastChecked := now }

/-! ## Session cache

Model of the `lru-cache` instance of src/unnamed/part_007 (`max: 1000`,
`ttl: 15 minutes`): an association list of entries with their `set`
timestamps.  Per the library contract, `get` misses entries whose age
strictly exceeds the TTL.  The capacity-1000 LRU backstop never fires
in any verified scenario (each involves at most two live entries) and
is not modelled.  Times are in milliseconds. -/

/-- An OAuth session record as cached by `createOAuthSession`
(src/unnamed/part_007 280-309) and merged by `updateOAuthSession`. -/
structure OAuthSessionR where
  id : String
  agentId : String
  serviceName : ServiceName
  state : String
  status : String
  authorizationCode : Option String
  errorMessage : Option String
  returnUrl : Option String
  expiresAt : Nat
  createdAt : Nat
deriving DecidableEq

/-- A temporary OAuth credential record as cached by the initiate
handler (`{oauth_token_secret, agentId, createdAt}`). -/
structure TempCredR where
  oauth_token_secret : String
  agentId : String
  createdAt : Nat
deriving DecidableEq

/-- A cached value: the two families sharing the one `oauthCache`. -/
inductive CacheVal where
  | sess (s : OAuthSessionR)
  | temp (t : TempCredR)
deriving DecidableEq

/-- One cache entry with the timestamp of the `set` that created it. -/
structure CacheEntry where
  key : String
  val : CacheVal
  start : Nat
deriving DecidableEq

/-- The `oauthCache` state. -/
abbrev OAuthCache := List CacheEntry

/-- The cache TTL: 15 minutes. -/
def cacheTTL : Nat := 1000 * 60 * 15

/-- `cache.set(k, v)` at time `now`: replaces any entry with the same
key and restarts its TTL. -/
def cacheSet (c : OAuthCache) (k : String) (v : CacheVal) (now : Nat) : OAuthCache :=
  ⟨k, v, now⟩ :: c.filter (fun e => !(e.key == k))

/-- `cache.get(k)` at time `now`: returns the entry unless absent or
stale (age strictly greater than the TTL). -/
def cacheGet (c : OAuthCache) (k : String) (now : Nat) : Option CacheVal :=
  match c.find? (fun e => e.key == k) with
  | none => none
  | some e => if now ≤ e.start + cacheTTL then some e.val else none

/-- `cache.delete(k)`. -/
def cacheDelete (c : OAuthCache) (k : String) : OAuthCache :=
  c.filter (fun e => !(e.key == k))

/-- The session cache key
`` `session:${agentId}:${service}:${state}` `` of src/unnamed/part_007. -/
def sessionCacheKey (agentId : String) (service : ServiceName) (state : String) : String :=
  "session:" ++ agentId ++ ":" ++ service.str ++ ":" ++ state

/-- `AuthService.createOAuthSession` (src/unnamed/part_007 280-309):
caches a pending session expiring 15 minutes from now.  `uuid` is the
externally generated `crypto.randomUUID()`. -/
def createOAuthSession (c : OAuthCache) (uuid agentId : String)
    (service : ServiceName) (state : String) (returnUrl : Option String)
    (now : Nat) : OAuthCache :=
  cacheSet c (sessionCacheKey agentId service state)
    (.sess { id := uuid, agentId := agentId, serviceName := service,
             state := state, status := "pending", authorizationCode := none,
             errorMessage := none, returnUrl := returnUrl,
             expiresAt := now + 15 * 60 * 1000, createdAt := now }) now

/-- `AuthService.validateOAuthSession` (src/unnamed/part_007 314-339):
cache lookup, then the active expiry check `new Date() >
sessionData.expiresAt` (expired entries are deleted and `null`
returned).  Returns the result together with the possibly updated
cache.  A temp-credential value under a session key cannot occur
(disjoint key prefixes) and counts as a miss. -/
def validateOAuthSession (c : OAuthCache) (agentId : String)
    (service : ServiceName) (state : String) (now : Nat) :
    Option OAuthSessionR × OAuthCache :=
  let key := sessionCacheKey agentId service state
  match cacheGet c key now with
  | none => (none, c)
  | some (.temp _) => (none, c)
  | some (.sess s) =>
    if s.expiresAt < now then (none, cacheDelete c key)
    else (some s, c)

/-- `AuthService.updateOAuthSession` (src/unnamed/part_007 359-389):
merges `updates` into the cached session (`upd` is the
`{...sessionData, ...updates}` merge), re-caching it while `new Date()
< expiresAt` and deleting it otherwise. -/
def updateOAuthSession (c : OAuthCache) (agentId : String)
    (service : ServiceName) (state : String)
    (upd : OAuthSessionR → OAuthSessionR) (now : Nat) : OAuthCache :=
  let key := sessionCacheKey agentId service state
  match cacheGet c key now with
  | none => c
  | some (.temp _) => c
  | some (.sess s) =>
    let s' := upd s
    if now < s'.expiresAt then cacheSet c key (.sess s') now
    else cacheDelete c key

/-- `AuthService.storeTempCredentials`: caches under `` `temp:${key}` ``. -/
def storeTempCredentials (c : OAuthCache) (k : String) (t : TempCredR)
    (now : Nat) : OAuthCache :=
  cacheSet c ("temp:" ++ k) (.temp t) now

/-- `AuthService.getTempCredentials`.  A session value under a temp key
cannot occur (disjoint key prefixes) and counts as a miss. -/
def getTempCredentials (c : OAuthCache) (k : String) (now : Nat) : Option TempCredR :=
  match cacheGet c ("temp:" ++ k) now with
  | some (.temp t) => some t
  | _ => none

/-- `AuthService.deleteTempCredentials`. -/
def deleteTempCredentials (c : OAuthCache) (k : String) : OAuthCache :=
  cacheDelete c ("temp:" ++ k)

/-! ## Twitter OAuth route handlers

The handlers of src/src/routes/twitter-auth.ts (paired with the
cache-based `AuthService` of src/unnamed/part_007) and the legacy
variant src/unnamed/part_003.  The external `twitter-api-v2` calls
(`generateAuthLink`, `login`, `v2.me()`) are inputs: their outcome is
passed in as a parameter.  Response rendering is abstracted into one
constructor per `res.*` call of the source. -/

/-- The provider's answer to `generateAuthLink`. -/
structure AuthLink where
  url : String
  oauth_token : String
  oauth_token_secret : String
deriving DecidableEq

/-- The provider's answer to `login(verifier)` plus `v2.me()`:
permanent token pair and the authenticated identity. -/
structure TwitterGrant where
  accessToken : String
  accessSecret : String
  userId : String
  username : String
  displayName : String
deriving DecidableEq

/-- Combined mutable state the handlers touch: the session cache and
the credential table. -/
structure SysState where
  cache : OAuthCache
  store : Store
deriving DecidableEq

/-- Query parameters of the callback request. -/
structure CallbackQuery where
  oauth_token : Option String
  oauth_verifier : Option String
  state : Option String
  agentId : Option String
deriving DecidableEq

/-- Response of the initiate handler: the `ok` fields are the JSON
body's key-value pairs, in source order. -/
inductive InitiateRes where
  | badRequest (msg : String)
  | serverError (msg : String)
  | ok (fields : List (String × String))
deriving DecidableEq

/-- Response of the callback handler. -/
inductive CallbackRes where
  | badRequest (msg : String)
  | serverError (msg : String)
  | popupHtml (userId username displayName : String)
  | redirect (url : String)
  | jsonSuccess (userId username displayName : String)
deriving DecidableEq

/-- Whether a callback response is one of the error responses. -/
def CallbackRes.isError : CallbackRes → Bool
  | .badRequest _ => true
  | .serverError _ => true
  | _ => false

/-- JavaScript `String.prototype.includes`. -/
def strContains (hay needle : String) : Bool :=
  hay.data.tails.any (fun t => needle.data.isPrefixOf t)

/-- Stand-in for `JSON.stringify` of the `TwitterCredentials` object
stored on callback success; its exact format is consulted by no claim,
only that a definite byte string is stored. -/
def serializeTwitterCredentials (apiKey apiSecretKey accessToken
    accessTokenSecret userId username : String) : Bytes :=
  strBytes (apiKey ++ "|" ++ apiSecretKey ++ "|" ++ accessToken ++ "|"
    ++ accessTokenSecret ++ "|" ++ userId ++ "|" ++ username)

/-- The `twitter-auth-initiate` handler
(src/src/routes/twitter-auth.ts 15-119).  `cfg` is the
`TWITTER_API_KEY`/`TWITTER_API_SECRET_KEY` pair, `authLink` the
provider's request-token answer, `state` the generated random state,
`uuid` the session record id.  On success it caches the session and
the temp secret and answers with authUrl, state and oauth_token only. -/
def twitterInitiate (cfg : Option (String × String))
    (authLink : Except String AuthLink) (agentId? : Option String)
    (returnUrl : Option String) (state uuid : String) (st : SysState)
    (now : Nat) : InitiateRes × SysState :=
  match agentId? with
  | none => (.badRequest "Agent ID is required", st)
  | some agentId =>
    match cfg with
    | none => (.serverError "Twitter API credentials not configured. Please set TWITTER_API_KEY and TWITTER_API_SECRET_KEY.", st)
    | some _ =>
      match authLink with
      | .error e => (.serverError ("Failed to initiate Twitter authentication: " ++ e), st)
      | .ok link =>
        let c1 := createOAuthSession st.cache uuid agentId .twitter state returnUrl now
        let tempKey := agentId ++ ":twitter:temp:" ++ link.oauth_token
        let c2 := storeTempCredentials c1 tempKey
          { oauth_token_secret := link.oauth_token_secret,
            agentId := agentId, createdAt := now } now
        (.ok [("authUrl", link.url), ("state", state),
              ("oauth_token", link.oauth_token)],
         { st with cache := c2 })

/-- The legacy `twitter-auth-initiate` handler (src/unnamed/part_003
15-82), response only: it returns `oauth_token_secret` in the JSON
body.  Its session bookkeeping goes to an `AuthService` variant that is
not among the sources and does not influence the response fields. -/
def twitterInitiateLegacy (cfg : Option (String × String))
    (authLink : Except String AuthLink) (agentId? : Option String)
    (state : String) : InitiateRes :=
  match agentId? with
  | none => .badRequest "Agent ID is required"
  | some _ =>
    match cfg with
    | none => .serverError "Twitter API credentials not configured. Please set TWITTER_API_KEY and TWITTER_API_SECRET_KEY."
    | some _ =>
      match authLink with
      | .error e => .serverError ("Failed to initiate Twitter authentication: " ++ e)
      | .ok link =>
        .ok [("authUrl", link.url), ("state", state),
             ("oauth_token", link.oauth_token),
             ("oauth_token_secret", link.oauth_token_secret)]

/-- The `twitter-auth-callback` handler
(src/src/routes/twitter-auth.ts 122-317).  `login` is the outcome of
the provider token exchange plus identity fetch; `C`/`encKey`/`iv`
parameterize the `EncryptionService` used by `storeCredentials`.  On
success it stores the permanent credentials, deletes the consumed temp
secret, marks the session authorized, and renders per `returnUrl`; on a
provider failure the catch block deletes the temp secret and marks the
session failed. -/
def twitterCallback (C : BlockCipher) (encKey : Option Bytes) (iv : Bytes)
    (cfg : Option (String × String)) (login : Except String TwitterGrant)
    (q : CallbackQuery) (st : SysState) (now : Nat) : CallbackRes × SysState :=
  match q.oauth_token, q.oauth_verifier, q.state with
  | some token, some verifier, some state =>
    match q.agentId with
    | none => (.badRequest "Missing Agent ID", st)
    | some agentId =>
      match validateOAuthSession st.cache agentId .twitter state now with
      | (none, c1) => (.badRequest "Invalid or expired OAuth session", { st with cache := c1 })
      | (some session, c1) =>
        let tempKey := agentId ++ ":twitter:temp:" ++ token
        match getTempCredentials c1 tempKey now with
        | none => (.badRequest "Temporary credentials not found or expired", { st with cache := c1 })
        | some _ =>
          match cfg with
          | none => (.serverError "Twitter API credentials not configured", { st with cache := c1 })
          | some (ck, cs) =>
            match login with
            | .error e =>
              let c2 := deleteTempCredentials c1 tempKey
              let c3 := updateOAuthSession c2 agentId .twitter state
                (fun s => { s with status := "failed", errorMessage := some e }) now
              (.serverError ("Failed to complete Twitter authentication: " ++ e),
               { st with cache := c3 })
            | .ok grant =>
              let blob := encrypt C encKey iv (serializeTwitterCredentials ck cs
                grant.accessToken grant.accessSecret grant.userId grant.username)
              let store1 := credUpsertUpdateInsert st.store agentId .twitter blob now
              let c2 := deleteTempCredentials c1 tempKey
              let markOk : OAuthSessionR → OAuthSessionR := fun s =>
                { s with status := "authorized", authorizationCode := some verifier }
              let c3 := updateOAuthSession c2 agentId .twitter state markOk now
              let res : CallbackRes :=
                match session.returnUrl with
                | some u =>
                  if strContains u "/goals" then
                    .popupHtml grant.userId grant.username grant.displayName
                  else .redirect (u ++ "?success=true&service=twitter")
                | none => .jsonSuccess grant.userId grant.username grant.displayName
              (res, { cache := c3, store := store1 })
  | _, _, _ => (.badRequest "Missing required OAuth parameters", st)

/-! ## Cipher lemmas -/

theorem bxor_bxor_cancel (a b : Byte) : bxor a (bxor a b) = b := by
  unfold bxor
  apply Fin.ext
  simp [← Nat.xor_assoc, Nat.xor_self, Nat.zero_xor]

theorem bxor_left_ne (a d : Byte) (hd : d ≠ 0) : bxor d a ≠ a := by
  intro h
  apply hd
  apply Fin.ext
  have hv : d.val ^^^ a.val = a.val := congrArg Fin.val h
  have h2 : d.val ^^^ a.val ^^^ a.val = a.val ^^^ a.val := by rw [hv]
  rw [Nat.xor_assoc, Nat.xor_self, Nat.xor_zero] at h2
  simpa using h2

theorem xorBlock_length (a b : Bytes) : (xorBlock a b).length = min a.length b.length := by
  simp [xorBlock]

theorem xorBlock_cancel (a : Bytes) : ∀ b, a.length = b.length →
    xorBlock a (xorBlock a b) = b := by
  induction a with
  | nil =>
    intro b h
    cases b with
    | nil => rfl
    | cons y ys => simp at h
  | cons x xs ih =>
    intro b h
    cases b with
    | nil => simp at h
    | cons y ys =>
      simp only [xorBlock, List.zipWith_cons_cons]
      rw [bxor_bxor_cancel]
      exact congrArg _ (ih ys (by simpa using h))

theorem xorBlock_replicate_zero (n : Nat) : ∀ b : Bytes, b.length = n →
    xorBlock (List.replicate n 0) b = b := by
  induction n with
  | zero =>
    intro b h
    cases b with
    | nil => rfl
    | cons y ys => simp at h
  | succ k ih =>
    intro b h
    cases b with
    | nil => simp at h
    | cons y ys =>
      simp only [List.replicate_succ, xorBlock, List.zipWith_cons_cons]
      have h0 : bxor 0 y = y := by
        apply Fin.ext
        simp [bxor, Nat.zero_xor]
      rw [h0]
      exact congrArg _ (ih ys (by simpa using h))

theorem hexVal_hexDigitByte (n : Nat) : hexVal (hexDigitByte n) = some (n % 16) := by
  have h16 : n % 16 < 16 := Nat.mod_lt _ (by omega)
  unfold hexVal hexDigitByte
  split_ifs <;> simp_all <;> omega

theorem hexDigitByte_ne_colon (n : Nat) : hexDigitByte n ≠ colonByte := by
  have h16 : n % 16 < 16 := Nat.mod_lt _ (by omega)
  unfold hexDigitByte colonByte
  split_ifs with h <;> (intro hc; have := congrArg Fin.val hc; simp at this; omega)

theorem mem_bytesToHex_ne_colon (l : Bytes) : ∀ c ∈ bytesToHex l, c ≠ colonByte := by
  induction l with
  | nil => simp [bytesToHex]
  | cons b rest ih =>
    simp only [bytesToHex, List.mem_cons]
    rintro c (rfl | rfl | hc)
    · exact hexDigitByte_ne_colon _
    · exact hexDigitByte_ne_colon _
    · exact ih c hc

theorem bufferFromHex_bytesToHex (l : Bytes) : bufferFromHex (bytesToHex l) = l := by
  induction l with
  | nil => rfl
  | cons b rest ih =>
    simp only [bytesToHex, bufferFromHex, hexVal_hexDigitByte]
    have hb := b.isLt
    have h1 : b.val / 16 % 16 = b.val / 16 := Nat.mod_eq_of_lt (by omega)
    have h2 : b.val % 16 % 16 = b.val % 16 := Nat.mod_eq_of_lt (by omega)
    rw [ih]
    congr 1
    apply Fin.ext
    simp only [h1, h2]
    have h3 : 16 * (b.val / 16) + b.val % 16 = b.val := by omega
    rw [h3, Nat.mod_eq_of_lt hb]

theorem splitOnByte_ne_nil (d : Byte) (l : Bytes) : splitOnByte d l ≠ [] := by
  cases l with
  | nil => simp [splitOnByte]
  | cons c rest =>
    simp only [splitOnByte]
    rcases h : splitOnByte d rest with _ | ⟨f, o⟩ <;> split_ifs <;> simp

theorem splitOnByte_no_sep (d : Byte) (l : Bytes) (h : ∀ c ∈ l, c ≠ d) :
    splitOnByte d l = [l] := by
  induction l with
  | nil => rfl
  | cons x xs ih =>
    have hx : x ≠ d := h x (List.mem_cons_self x xs)
    have hxs : splitOnByte d xs = [xs] := ih (fun c hc => h c (List.mem_cons_of_mem x hc))
    simp [splitOnByte, hxs, hx]

theorem splitOnByte_append (d : Byte) (a b : Bytes) (h : ∀ c ∈ a, c ≠ d) :
    splitOnByte d (a ++ d :: b) = a :: splitOnByte d b := by
  induction a with
  | nil =>
    simp only [List.nil_append, splitOnByte]
    rcases hb : splitOnByte d b with _ | ⟨f, o⟩
    · exact absurd hb (splitOnByte_ne_nil d b)
    · simp
  | cons x xs ih =>
    have hx : x ≠ d := h x (List.mem_cons_self x xs)
    have hxs := ih (fun c hc => h c (List.mem_cons_of_mem x hc))
    simp only [List.cons_append, splitOnByte, List.append_eq]
    rw [hxs]
    simp [hx]

theorem padLen_bounds (n : Nat) : 1 ≤ padLen n ∧ padLen n ≤ 16 := by
  unfold padLen
  omega

theorem pkcs7pad_length (data : Bytes) :
    (pkcs7pad data).length = data.length + padLen data.length := by
  simp [pkcs7pad]

theorem pkcs7pad_length_mod (data : Bytes) : (pkcs7pad data).length % 16 = 0 := by
  rw [pkcs7pad_length]
  unfold padLen
  omega

theorem pkcs7pad_ne_nil (data : Bytes) : pkcs7pad data ≠ [] := by
  intro h
  have hlen := congrArg List.length h
  rw [pkcs7pad_length] at hlen
  simp at hlen
  have hb := padLen_bounds data.length
  omega

theorem getLast?_replicate (n : Nat) (a : Byte) :
    (List.replicate n a).getLast? = if n = 0 then none else some a := by
  induction n with
  | zero => rfl
  | succ k ih =>
    rw [List.replicate_succ, List.getLast?_cons, ih]
    cases k <;> simp

theorem pkcs7unpad_padblock (front : Bytes) (p : Nat) (hp1 : 1 ≤ p) (hp16 : p ≤ 16) :
    pkcs7unpad (front ++ List.replicate p ⟨p % 256, by omega⟩) = some front := by
  set pb : Byte := ⟨p % 256, by omega⟩ with hpbdef
  have hpbv : pb.val = p := Nat.mod_eq_of_lt (by omega)
  have hlast : (front ++ List.replicate p pb).getLast? = some pb := by
    rw [List.getLast?_append, getLast?_replicate, if_neg (by omega : ¬p = 0)]
    simp
  have hlen : (front ++ List.replicate p pb).length = front.length + p := by simp
  have hpv : p % 256 = p := Nat.mod_eq_of_lt (by omega)
  unfold pkcs7unpad
  simp only [hlast]
  split_ifs with h1 h2 h3
  · exfalso
    rw [hpv] at h1
    omega
  · exfalso
    rw [hpv] at h2
    simp [hlen] at h2
  · rw [hpv]
    simp only [hlen, Nat.add_sub_cancel]
    exact congrArg some (List.take_left front _)
  · exfalso
    apply h3
    rw [hpv]
    simp only [hlen, Nat.add_sub_cancel]
    exact List.drop_left front _

theorem pkcs7unpad_pkcs7pad (data : Bytes) : pkcs7unpad (pkcs7pad data) = some data := by
  unfold pkcs7pad
  have hb := padLen_bounds data.length
  exact pkcs7unpad_padblock data (padLen data.length) hb.1 hb.2

theorem chunks16Go_congr (f1 : Nat) : ∀ (f2 : Nat) (l : Bytes),
    l.length ≤ f1 → l.length ≤ f2 → chunks16Go f1 l = chunks16Go f2 l := by
  induction f1 with
  | zero =>
    intro f2 l h1 _
    have : l = [] := List.length_eq_zero.mp (by omega)
    subst this
    cases f2 <;> rfl
  | succ k ih =>
    intro f2 l h1 h2
    cases l with
    | nil => cases f2 <;> rfl
    | cons c rest =>
      cases f2 with
      | zero => simp at h2
      | succ m =>
        simp only [chunks16Go]
        have hlen : (c :: rest).length = rest.length + 1 := rfl
        rw [ih m ((c :: rest).drop 16) (by simp [hlen] at *; omega)
          (by simp [hlen] at *; omega)]

theorem chunks16_eq (l : Bytes) :
    chunks16 l = if l = [] then [] else l.take 16 :: chunks16 (l.drop 16) := by
  cases l with
  | nil => rfl
  | cons c rest =>
    rw [if_neg (by simp)]
    show chunks16Go (rest.length + 1) (c :: rest) = _
    simp only [chunks16Go, chunks16]
    rw [chunks16Go_congr rest.length ((c :: rest).drop 16).length ((c :: rest).drop 16)
      (by simp) (by simp)]

theorem chunks16_flatten (l : Bytes) : (chunks16 l).flatten = l := by
  rw [chunks16_eq]
  split
  next h => simp [h]
  next h =>
    rw [List.flatten_cons, chunks16_flatten (l.drop 16), List.take_append_drop]
termination_by l.length
decreasing_by
  rename_i h
  simp only [List.length_drop]
  have : 0 < l.length := List.length_pos.mpr h
  omega

theorem chunks16_mem_length (l : Bytes) (hm : l.length % 16 = 0) :
    ∀ b ∈ chunks16 l, b.length = 16 := by
  rw [chunks16_eq]
  split
  next h => simp
  next h =>
    intro b hb
    have hpos : 0 < l.length := List.length_pos.mpr h
    have h16 : 16 ≤ l.length := by omega
    rcases List.mem_cons.mp hb with rfl | htail
    · simp [List.length_take]; omega
    · exact chunks16_mem_length (l.drop 16) (by simp [List.length_drop]; omega) b htail
termination_by l.length
decreasing_by
  rename_i h
  simp only [List.length_drop]
  have : 0 < l.length := List.length_pos.mpr h
  omega

theorem chunks16_ne_nil (l : Bytes) (h : l ≠ []) : chunks16 l ≠ [] := by
  rw [chunks16_eq]
  simp [h]

theorem chunks16_of_len16 (l : Bytes) (h : l.length = 16) : chunks16 l = [l] := by
  rw [chunks16_eq]
  have hne : l ≠ [] := by intro h0; rw [h0] at h; simp at h
  rw [if_neg hne]
  rw [List.take_of_length_le (by omega), List.drop_eq_nil_of_le (by omega)]
  rw [chunks16_eq]
  simp

theorem chunks16_flatten_of_16 (bs : List Bytes) (h : ∀ b ∈ bs, b.length = 16) :
    chunks16 bs.flatten = bs := by
  induction bs with
  | nil => rfl
  | cons b rest ih =>
    rw [List.flatten_cons]
    have hb : b.length = 16 := h b (List.mem_cons_self b rest)
    have hne : b ++ rest.flatten ≠ [] := by
      intro h0
      have := congrArg List.length h0
      simp [hb] at this
    rw [chunks16_eq, if_neg hne]
    have htake : (b ++ rest.flatten).take 16 = b := by
      rw [← hb]
      exact List.take_left b _
    have hdrop : (b ++ rest.flatten).drop 16 = rest.flatten := by
      rw [← hb]
      exact List.drop_left b _
    rw [htake, hdrop, ih (fun x hx => h x (List.mem_cons_of_mem b hx))]

theorem cbcEnc_mem_length (C : BlockCipher) (k : Bytes) (bs : List Bytes) :
    ∀ iv, iv.length = 16 → (∀ b ∈ bs, b.length = 16) →
    ∀ c ∈ cbcEncBlocks C k iv bs, c.length = 16 := by
  induction bs with
  | nil => intro iv _ _ c hc; simp [cbcEncBlocks] at hc
  | cons b rest ih =>
    intro iv hiv hbs c hc
    have hb : b.length = 16 := hbs b (List.mem_cons_self b rest)
    have hx : (xorBlock iv b).length = 16 := by rw [xorBlock_length]; omega
    have henc : (C.enc k (xorBlock iv b)).length = 16 := C.enc_len k _ hx
    simp only [cbcEncBlocks] at hc
    rcases List.mem_cons.mp hc with rfl | htail
    · exact henc
    · exact ih _ henc (fun x hxm => hbs x (List.mem_cons_of_mem b hxm)) c htail

theorem cbcDec_cbcEnc (C : BlockCipher) (k : Bytes) (bs : List Bytes) :
    ∀ iv, iv.length = 16 → (∀ b ∈ bs, b.length = 16) →
    cbcDecBlocks C k iv (cbcEncBlocks C k iv bs) = bs := by
  induction bs with
  | nil => intro iv _ _; rfl
  | cons b rest ih =>
    intro iv hiv hbs
    have hb : b.length = 16 := hbs b (List.mem_cons_self b rest)
    have hx : (xorBlock iv b).length = 16 := by rw [xorBlock_length]; omega
    simp only [cbcEncBlocks, cbcDecBlocks]
    rw [C.dec_enc k _ hx, xorBlock_cancel iv b (by omega)]
    exact congrArg _ (ih _ (C.enc_len k _ hx) (fun x hxm => hbs x (List.mem_cons_of_mem b hxm)))

theorem flatten_length_of_16 (bs : List Bytes) (h : ∀ b ∈ bs, b.length = 16) :
    bs.flatten.length = 16 * bs.length := by
  induction bs with
  | nil => rfl
  | cons b rest ih =>
    rw [List.flatten_cons, List.length_append, h b (List.mem_cons_self b rest),
      ih (fun x hx => h x (List.mem_cons_of_mem b hx))]
    simp [List.length_cons]
    ring

/-- Claim C6: for every plaintext and every configured key of at least
32 characters (with any block cipher primitive and any 16-byte IV),
decrypting the result of `encrypt` yields the plaintext again. -/
theorem C6_decrypt_encrypt (C : BlockCipher) (key iv data : Bytes)
    (hk : 32 ≤ key.length) (hiv : iv.length = 16) :
    decrypt C (some key) (encrypt C (some key) iv data) = some data := by
  have hpadmod : (pkcs7pad data).length % 16 = 0 := pkcs7pad_length_mod data
  have hblocks : ∀ b ∈ chunks16 (pkcs7pad data), b.length = 16 :=
    chunks16_mem_length _ hpadmod
  have hctblocks : ∀ c ∈ cbcEncBlocks C (key.take 32) iv (chunks16 (pkcs7pad data)),
      c.length = 16 := cbcEnc_mem_length C _ _ iv hiv hblocks
  set ctb := (cbcEncBlocks C (key.take 32) iv (chunks16 (pkcs7pad data))).flatten with hctb
  have hctlen : ctb.length = 16 * (cbcEncBlocks C (key.take 32) iv (chunks16 (pkcs7pad data))).length :=
    flatten_length_of_16 _ hctblocks
  have hcbne : cbcEncBlocks C (key.take 32) iv (chunks16 (pkcs7pad data)) ≠ [] := by
    have h1 : chunks16 (pkcs7pad data) ≠ [] := chunks16_ne_nil _ (pkcs7pad_ne_nil data)
    rcases h2 : chunks16 (pkcs7pad data) with _ | ⟨b, rest⟩
    · exact absurd h2 h1
    · simp [cbcEncBlocks]
  have hctne : ctb ≠ [] := by
    intro h0
    have := congrArg List.length h0
    rw [hctlen] at this
    simp at this
    rcases h2 : cbcEncBlocks C (key.take 32) iv (chunks16 (pkcs7pad data)) with _ | ⟨b, rest⟩
    · exact hcbne h2
    · rw [h2] at this; simp at this
  simp only [encrypt, decrypt, if_neg (by omega : ¬key.length < 32)]
  rw [splitOnByte_append colonByte _ _ (mem_bytesToHex_ne_colon iv),
    splitOnByte_no_sep colonByte _ (mem_bytesToHex_ne_colon ctb)]
  simp only [bufferFromHex_bytesToHex]
  rw [if_pos ⟨hiv, hctne, by rw [hctlen]; simp [Nat.mul_mod_right]⟩]
  rw [hctb, chunks16_flatten_of_16 _ hctblocks,
    cbcDec_cbcEnc C (key.take 32) _ iv hiv hblocks, chunks16_flatten,
    pkcs7unpad_pkcs7pad]

/-- Claim C6 witness: round-trip at a concrete key, IV and plaintext. -/
theorem C6_witness :
    decrypt idCipher (some (List.replicate 32 (97 : Byte)))
      (encrypt idCipher (some (List.replicate 32 (97 : Byte)))
        (List.replicate 16 (0 : Byte)) [(65 : Byte)]) = some [(65 : Byte)] :=
  C6_decrypt_encrypt idCipher _ _ _ (by decide) (by decide)

/-- Claim C9: only the first 32 characters of the configured key
influence `encrypt` and `decrypt` (the key is truncated with
`slice(0, 32)` before use). -/
theorem C9_key_truncation (C : BlockCipher) (k1 k2 : Bytes)
    (h1 : 32 ≤ k1.length) (h2 : 32 ≤ k2.length)
    (heq : k1.take 32 = k2.take 32) :
    (∀ iv data, encrypt C (some k1) iv data = encrypt C (some k2) iv data) ∧
    (∀ s, decrypt C (some k1) s = decrypt C (some k2) s) := by
  constructor
  · intro iv data
    simp only [encrypt, if_neg (by omega : ¬k1.length < 32),
      if_neg (by omega : ¬k2.length < 32), heq]
  · intro s
    simp only [decrypt, if_neg (by omega : ¬k1.length < 32),
      if_neg (by omega : ¬k2.length < 32), heq]

/-- Claim C9 witness: two keys differing only beyond position 32
encrypt and decrypt identically at a concrete input. -/
theorem C9_witness :
    encrypt idCipher (some (List.replicate 32 (97 : Byte) ++ [120]))
        (List.replicate 16 0) [65]
      = encrypt idCipher (some (List.replicate 32 (97 : Byte) ++ [121]))
        (List.replicate 16 0) [65] ∧
    decrypt idCipher (some (List.replicate 32 (97 : Byte) ++ [120])) [58]
      = decrypt idCipher (some (List.replicate 32 (97 : Byte) ++ [121])) [58] :=
  ⟨(C9_key_truncation idCipher _ _ (by decide) (by decide) (by decide)).1 _ _,
   (C9_key_truncation idCipher _ _ (by decide) (by decide) (by decide)).2 _⟩

theorem bytesToHex_replicate_zero (n : Nat) :
    bytesToHex (List.replicate n 0) = List.replicate (2 * n) 48 := by
  induction n with
  | zero => rfl
  | succ k ih =>
    rw [List.replicate_succ, Nat.mul_succ]
    rw [show 2 * k + 2 = (2 * k + 1) + 1 by omega]
    rw [List.replicate_succ, List.replicate_succ]
    simp only [bytesToHex, ih]
    constructor

theorem bufferFromHex_replicate_48 (n : Nat) :
    bufferFromHex (List.replicate (2 * n) 48) = List.replicate n 0 := by
  induction n with
  | zero => rfl
  | succ k ih =>
    rw [Nat.mul_succ, show 2 * k + 2 = (2 * k + 1) + 1 by omega,
      List.replicate_succ, List.replicate_succ, List.replicate_succ]
    show bufferFromHex (48 :: 48 :: List.replicate (2 * k) 48) = _
    simp only [bufferFromHex]
    rw [show hexVal 48 = some 0 by rfl]
    simp only [ih]
    constructor

/-- Claim C7 (amended): `decrypt` raises `DecryptionError` when the
input is not exactly two colon-delimited parts; but a single altered
ciphertext byte is *not* always detected: for every block cipher
primitive (hence also for AES-256), every key of at least 32
characters, and every one-byte plaintext, altering only the first byte
of the ciphertext (a hex digit of the embedded IV) makes `decrypt`
return a silently wrong plaintext instead of raising. -/
theorem C7_decrypt_malformed_throws_but_tamper_undetected :
    (∀ (C : BlockCipher) (key s : Bytes), 32 ≤ key.length →
      (splitOnByte colonByte s).length ≠ 2 → decrypt C (some key) s = none) ∧
    (∀ (C : BlockCipher) (key : Bytes) (a : Byte), 32 ≤ key.length →
      ∃ t : Bytes,
        encrypt C (some key) (List.replicate 16 0) [a] = 48 :: t ∧
        decrypt C (some key) (49 :: t) = some [bxor 16 a] ∧
        bxor 16 a ≠ a) := by
  constructor
  · intro C key s hk hlen
    simp only [decrypt, if_neg (by omega : ¬key.length < 32)]
    rcases hsp : splitOnByte colonByte s with _ | ⟨x, _ | ⟨y, _ | ⟨z, rest⟩⟩⟩
    · exact absurd hsp (splitOnByte_ne_nil _ _)
    · rfl
    · rw [hsp] at hlen
      simp at hlen
    · rfl
  · intro C key a hk
    have hpadlen : (pkcs7pad [a]).length = 16 := by
      rw [pkcs7pad_length]
      simp [padLen]
    have hchunks : chunks16 (pkcs7pad [a]) = [pkcs7pad [a]] := chunks16_of_len16 _ hpadlen
    have hxz : xorBlock (List.replicate 16 0) (pkcs7pad [a]) = pkcs7pad [a] :=
      xorBlock_replicate_zero 16 _ hpadlen
    set eb := C.enc (key.take 32) (pkcs7pad [a]) with hebdef
    have heblen : eb.length = 16 := C.enc_len _ _ hpadlen
    have henc : encrypt C (some key) (List.replicate 16 0) [a]
        = bytesToHex (List.replicate 16 0) ++ colonByte :: bytesToHex eb := by
      simp only [encrypt, if_neg (by omega : ¬key.length < 32), hchunks]
      simp only [cbcEncBlocks, hxz, List.flatten_cons, List.flatten_nil,
        List.append_nil, hebdef]
    refine ⟨List.replicate 31 48 ++ colonByte :: bytesToHex eb, ?_, ?_, ?_⟩
    · rw [henc, bytesToHex_replicate_zero]
      rfl
    · have hsplit : splitOnByte colonByte
          ((49 : Byte) :: (List.replicate 31 48 ++ colonByte :: bytesToHex eb))
          = [49 :: List.replicate 31 48, bytesToHex eb] := by
        have := splitOnByte_append colonByte (49 :: List.replicate 31 48)
          (bytesToHex eb) (by
            intro c hc
            rcases List.mem_cons.mp hc with rfl | hc2
            · decide
            · rw [List.eq_of_mem_replicate hc2]
              decide)
        rw [List.cons_append] at this
        rw [this, splitOnByte_no_sep colonByte _ (mem_bytesToHex_ne_colon eb)]
      have hiv : bufferFromHex (49 :: List.replicate 31 48) = 16 :: List.replicate 15 0 := by
        rw [show (31 : Nat) = 2 * 15 + 1 by omega, List.replicate_succ]
        show bufferFromHex (49 :: 48 :: List.replicate (2 * 15) 48) = _
        simp only [bufferFromHex]
        rw [show hexVal 49 = some 1 by rfl, show hexVal 48 = some 0 by rfl]
        simp only [bufferFromHex_replicate_48]
        constructor
      simp only [decrypt, if_neg (by omega : ¬key.length < 32), hsplit, hiv,
        bufferFromHex_bytesToHex]
      rw [if_pos ⟨by simp, by
          intro h0
          rw [h0] at heblen
          simp at heblen, by rw [heblen]⟩]
      rw [chunks16_of_len16 eb heblen]
      simp only [cbcDecBlocks, hebdef, C.dec_enc _ _ hpadlen, List.flatten_cons,
        List.flatten_nil, List.append_nil]
      have hxil : xorBlock (16 :: List.replicate 15 0) (pkcs7pad [a])
          = pkcs7pad [bxor 16 a] := by
        show xorBlock (16 :: List.replicate 15 0)
          ([a] ++ List.replicate (padLen 1) ⟨padLen 1 % 256, by omega⟩) = _
        rw [show padLen 1 = 15 from rfl]
        show xorBlock (16 :: List.replicate 15 0)
          (a :: List.replicate 15 ⟨15 % 256, by omega⟩) = _
        simp only [xorBlock, List.zipWith_cons_cons]
        rw [show List.zipWith bxor (List.replicate 15 0)
            (List.replicate 15 ⟨15 % 256, by omega⟩)
          = List.replicate 15 ⟨15 % 256, by omega⟩ from
          xorBlock_replicate_zero 15 _ (by simp)]
        rfl
      rw [hxil, pkcs7unpad_pkcs7pad]
    · exact bxor_left_ne a 16 (by decide)

/-- Claim C7 counterexample: a concrete valid ciphertext (key of 32
characters, plaintext byte 65) altered in exactly its first byte (a
hex digit of the embedded IV, `48 ↦ 49`) is *not* rejected: `decrypt`
returns `some [81]` — a silently wrong plaintext, not a
`DecryptionError` — although the altered string has the same length as
the original and differs from it only at position 0. -/
theorem C7_counterexample :
    32 ≤ (List.replicate 32 (97 : Byte)).length ∧
    (encrypt idCipher (some (List.replicate 32 97)) (List.replicate 16 0) [65]).head? = some 48 ∧
    (49 :: (encrypt idCipher (some (List.replicate 32 97)) (List.replicate 16 0) [65]).tail).length
      = (encrypt idCipher (some (List.replicate 32 97)) (List.replicate 16 0) [65]).length ∧
    decrypt idCipher (some (List.replicate 32 97))
      (49 :: (encrypt idCipher (some (List.replicate 32 97)) (List.replicate 16 0) [65]).tail)
      = some [81] ∧
    some [(81 : Byte)] ≠ none ∧ some [(81 : Byte)] ≠ some [(65 : Byte)] := by
  decide

/-- Claim C7 witness: the amended theorem applied at a malformed input
(the empty string) and at the concrete one-byte plaintext 65. -/
theorem C7_witness :
    decrypt idCipher (some (List.replicate 32 97)) [] = none ∧
    (∃ t : Bytes,
      encrypt idCipher (some (List.replicate 32 97)) (List.replicate 16 0) [65] = 48 :: t ∧
      decrypt idCipher (some (List.replicate 32 97)) (49 :: t) = some [bxor 16 65] ∧
      bxor 16 65 ≠ 65) :=
  ⟨C7_decrypt_malformed_throws_but_tamper_undetected.1 idCipher _ [] (by decide) (by decide),
   C7_decrypt_malformed_throws_but_tamper_undetected.2 idCipher _ 65 (by decide)⟩

/-! ## Credential store lemmas -/

theorem rowMatches_iff (a : String) (s : ServiceName) (r : CredRow) :
    rowMatches a s r = true ↔ (r.agentId = a ∧ r.serviceName = s) := by
  simp [rowMatches, Bool.and_eq_true, beq_iff_eq]

theorem rowsFor_map_patch (st : Store) (a : String) (s : ServiceName)
    (g : CredRow → CredRow)
    (hg : ∀ r, (g r).agentId = r.agentId ∧ (g r).serviceName = r.serviceName)
    (a' : String) (s' : ServiceName) :
    rowsFor (st.map (fun r => if rowMatches a s r then g r else r)) a' s'
      = (rowsFor st a' s').map (fun r => if rowMatches a s r then g r else r) := by
  unfold rowsFor
  rw [List.filter_map]
  congr 1
  apply List.filter_congr
  intro r _
  by_cases h : rowMatches a s r
  · simp only [Function.comp_apply, if_pos h]
    unfold rowMatches
    rw [(hg r).1, (hg r).2]
  · simp [Function.comp_apply, if_neg h]

theorem any_iff_rowsFor (st : Store) (a : String) (s : ServiceName) :
    st.any (rowMatches a s) = true ↔ rowsFor st a s ≠ [] := by
  unfold rowsFor
  rw [List.any_eq_true]
  constructor
  · rintro ⟨r, hr, hm⟩ h0
    have hmem : r ∈ List.filter (rowMatches a s) st := List.mem_filter.mpr ⟨hr, hm⟩
    rw [h0] at hmem
    simp at hmem
  · intro h
    rcases hne : List.filter (rowMatches a s) st with _ | ⟨r, rest⟩
    · exact absurd hne h
    · have hmem : r ∈ List.filter (rowMatches a s) st := by
        rw [hne]
        exact List.mem_cons_self r rest
      have := List.mem_filter.mp hmem
      exact ⟨r, this.1, this.2⟩

theorem wf_singleton (st : Store) (a : String) (s : ServiceName)
    (hwf : wfStore st) (hne : rowsFor st a s ≠ []) :
    ∃ r, rowsFor st a s = [r] := by
  have hlen := hwf a s
  rcases hl : rowsFor st a s with _ | ⟨r, rest⟩
  · exact absurd hl hne
  · rw [hl] at hlen
    simp at hlen
    rw [hlen]
    exact ⟨r, rfl⟩

theorem activeRowsFor_eq (st : Store) (a : String) (s : ServiceName) :
    activeRowsFor st a s = (rowsFor st a s).filter (fun r => r.isActive) := by
  unfold activeRowsFor rowsFor
  rw [List.filter_filter]
  congr 1
  funext r
  rw [Bool.and_comm]

theorem dbStore_step (st : Store) (a : String) (s : ServiceName) (c : Bytes) (t : Nat)
    (hwf : wfStore st) (hact : ∀ r ∈ rowsFor st a s, r.isActive = true) :
    wfStore (dbStoreCredentials st a s c t) ∧
    ∃ r, rowsFor (dbStoreCredentials st a s c t) a s = [r] ∧
      r.credentials = c ∧ r.isActive = true := by
  unfold dbStoreCredentials
  by_cases hany : st.any (rowMatches a s)
  · rw [if_pos hany]
    have hgkeys : ∀ r : CredRow,
        ({ r with credentials := c, updatedAt := t } : CredRow).agentId = r.agentId ∧
        ({ r with credentials := c, updatedAt := t } : CredRow).serviceName = r.serviceName :=
      fun r => ⟨rfl, rfl⟩
    have hmap := rowsFor_map_patch st a s (fun r => { r with credentials := c, updatedAt := t }) hgkeys
    refine ⟨?_, ?_⟩
    · intro a' s'
      rw [hmap a' s', List.length_map]
      exact hwf a' s'
    · obtain ⟨r0, hr0⟩ := wf_singleton st a s hwf ((any_iff_rowsFor st a s).mp hany)
      have hr0mem : r0 ∈ rowsFor st a s := by
        rw [hr0]
        exact List.mem_cons_self r0 []
      have hr0m : rowMatches a s r0 = true := (List.mem_filter.mp hr0mem).2
      rw [hmap a s, hr0]
      simp only [List.map_cons, List.map_nil, if_pos hr0m]
      refine ⟨_, rfl, rfl, ?_⟩
      simpa using hact r0 hr0mem
  · rw [if_neg hany]
    have hempty : rowsFor st a s = [] := by
      by_contra h
      exact hany ((any_iff_rowsFor st a s).mpr h)
    have hnewm : rowMatches a s ⟨a, s, c, true, t⟩ = true := by
      rw [rowMatches_iff]
      exact ⟨rfl, rfl⟩
    refine ⟨?_, ?_⟩
    · intro a' s'
      unfold rowsFor at *
      rw [List.filter_append]
      by_cases hm : rowMatches a' s' ⟨a, s, c, true, t⟩
      · obtain ⟨ha', hs'⟩ := (rowMatches_iff a' s' _).mp hm
        simp only at ha' hs'
        subst ha'
        subst hs'
        rw [show List.filter (rowMatches a s) st = [] from hempty]
        simp [hm]
      · rw [show List.filter (rowMatches a' s') [(⟨a, s, c, true, t⟩ : CredRow)] = []
            by simp [hm]]
        simpa using hwf a' s'
    · refine ⟨⟨a, s, c, true, t⟩, ?_, rfl, rfl⟩
      unfold rowsFor at *
      rw [List.filter_append, hempty]
      simp [hnewm]

theorem authStore_step (st : Store) (a : String) (s : ServiceName) (c : Bytes) (t : Nat)
    (hwf : wfStore st) (hact : ∀ r ∈ rowsFor st a s, r.isActive = true) :
    wfStore (credUpsertUpdateInsert st a s c t) ∧
    ∃ r, rowsFor (credUpsertUpdateInsert st a s c t) a s = [r] ∧
      r.credentials = c ∧ r.isActive = true := by
  unfold credUpsertUpdateInsert
  by_cases hany : st.any (rowMatches a s)
  · rw [if_pos hany]
    have hgkeys : ∀ r : CredRow,
        ({ r with credentials := c, isActive := true, updatedAt := t } : CredRow).agentId = r.agentId ∧
        ({ r with credentials := c, isActive := true, updatedAt := t } : CredRow).serviceName = r.serviceName :=
      fun r => ⟨rfl, rfl⟩
    have hmap := rowsFor_map_patch st a s
      (fun r => { r with credentials := c, isActive := true, updatedAt := t }) hgkeys
    refine ⟨?_, ?_⟩
    · intro a' s'
      rw [hmap a' s', List.length_map]
      exact hwf a' s'
    · obtain ⟨r0, hr0⟩ := wf_singleton st a s hwf ((any_iff_rowsFor st a s).mp hany)
      have hr0mem : r0 ∈ rowsFor st a s := by
        rw [hr0]
        exact List.mem_cons_self r0 []
      have hr0m : rowMatches a s r0 = true := (List.mem_filter.mp hr0mem).2
      rw [hmap a s, hr0]
      simp only [List.map_cons, List.map_nil, if_pos hr0m]
      exact ⟨_, rfl, rfl, rfl⟩
  · rw [if_neg hany]
    have hempty : rowsFor st a s = [] := by
      by_contra h
      exact hany ((any_iff_rowsFor st a s).mpr h)
    have hnewm : rowMatches a s ⟨a, s, c, true, t⟩ = true := by
      rw [rowMatches_iff]
      exact ⟨rfl, rfl⟩
    refine ⟨?_, ?_⟩
    · intro a' s'
      unfold rowsFor at *
      rw [List.filter_append]
      by_cases hm : rowMatches a' s' ⟨a, s, c, true, t⟩
      · obtain ⟨ha', hs'⟩ := (rowMatches_iff a' s' _).mp hm
        simp only at ha' hs'
        subst ha'
        subst hs'
        rw [show List.filter (rowMatches a s) st = [] from hempty]
        simp [hm]
      · rw [show List.filter (rowMatches a' s') [(⟨a, s, c, true, t⟩ : CredRow)] = []
            by simp [hm]]
        simpa using hwf a' s'
    · refine ⟨⟨a, s, c, true, t⟩, ?_, rfl, rfl⟩
      unfold rowsFor at *
      rw [List.filter_append, hempty]
      simp [hnewm]

theorem upsert_foldl (step : Store → Bytes × Nat → Store) (a : String) (s : ServiceName)
    (hstep : ∀ st p, wfStore st → (∀ r ∈ rowsFor st a s, r.isActive = true) →
      wfStore (step st p) ∧
      ∃ r, rowsFor (step st p) a s = [r] ∧ r.credentials = p.1 ∧ r.isActive = true) :
    ∀ (ps : List (Bytes × Nat)) (st : Store) (cLast : Bytes) (tLast : Nat),
      wfStore st → (∀ r ∈ rowsFor st a s, r.isActive = true) →
      ps.getLast? = some (cLast, tLast) →
      wfStore (ps.foldl step st) ∧
      ∃ r, rowsFor (ps.foldl step st) a s = [r] ∧ r.credentials = cLast ∧ r.isActive = true := by
  intro ps
  induction ps with
  | nil =>
    intro st cLast tLast _ _ hlast
    simp at hlast
  | cons p rest ih =>
    intro st cLast tLast hwf hact hlast
    obtain ⟨hwf', r', hr', hrc', hra'⟩ :
        wfStore (step st p) ∧
        ∃ r, rowsFor (step st p) a s = [r] ∧ r.credentials = p.1 ∧ r.isActive = true :=
      hstep st p hwf hact
    have hact' : ∀ r ∈ rowsFor (step st p) a s, r.isActive = true := by
      intro r hr
      rw [hr'] at hr
      rcases List.mem_singleton.mp hr with rfl
      exact hra'
    cases rest with
    | nil =>
      simp only [List.foldl_cons, List.foldl_nil]
      have hp : p = (cLast, tLast) := by
        simpa using hlast
      subst hp
      exact ⟨hwf', r', hr', hrc', hra'⟩
    | cons q qs =>
      simp only [List.foldl_cons]
      have hlast' : (q :: qs).getLast? = some (cLast, tLast) := by
        rwa [List.getLast?_cons_cons] at hlast
      have := ih (step st p) cLast tLast hwf' hact' hlast'
      simpa [List.foldl_cons] using this

/-- Claim C1: starting from a store satisfying the uniqueness
constraint whose existing row for the (agent, service) pair — if any —
is active, after any (sequential interleaving of a) nonempty sequence
of `storeCredentials(agent, service, payload_i)` calls the store still
has no duplicate rows for any pair, and exactly one active record
exists for the pair, whose payload is the last call's payload.  This
holds for both the atomic `ON CONFLICT DO UPDATE` upsert of
`DatabaseService.storeCredentials` and the update-then-insert upsert of
`AuthService.storeCredentials`. -/
theorem C1_storeCredentials_last_writer_wins (st : Store) (a : String) (s : ServiceName)
    (ps : List (Bytes × Nat)) (cLast : Bytes) (tLast : Nat)
    (hwf : wfStore st) (hact : ∀ r ∈ rowsFor st a s, r.isActive = true)
    (hlast : ps.getLast? = some (cLast, tLast)) :
    (wfStore (ps.foldl (fun acc p => dbStoreCredentials acc a s p.1 p.2) st) ∧
      ∃ r, activeRowsFor (ps.foldl (fun acc p => dbStoreCredentials acc a s p.1 p.2) st) a s = [r] ∧
        r.credentials = cLast) ∧
    (wfStore (ps.foldl (fun acc p => credUpsertUpdateInsert acc a s p.1 p.2) st) ∧
      ∃ r, activeRowsFor (ps.foldl (fun acc p => credUpsertUpdateInsert acc a s p.1 p.2) st) a s = [r] ∧
        r.credentials = cLast) := by
  constructor
  · obtain ⟨hwf1, r, hr, hrc, hra⟩ :=
      upsert_foldl (fun acc p => dbStoreCredentials acc a s p.1 p.2) a s
        (fun st' p h1 h2 => dbStore_step st' a s p.1 p.2 h1 h2)
        ps st cLast tLast hwf hact hlast
    refine ⟨hwf1, r, ?_, hrc⟩
    rw [activeRowsFor_eq, hr]
    simp [hra]
  · obtain ⟨hwf2, r, hr, hrc, hra⟩ :=
      upsert_foldl (fun acc p => credUpsertUpdateInsert acc a s p.1 p.2) a s
        (fun st' p h1 h2 => authStore_step st' a s p.1 p.2 h1 h2)
        ps st cLast tLast hwf hact hlast
    refine ⟨hwf2, r, ?_, hrc⟩
    rw [activeRowsFor_eq, hr]
    simp [hra]

/-- Claim C1 witness: two writes to the same pair on the empty store
leave exactly one active row holding the second payload, under both
upsert implementations. -/
theorem C1_witness :
    (wfStore (([([1], 5), ([2], 6)] : List (Bytes × Nat)).foldl
        (fun acc p => dbStoreCredentials acc "a1" .twitter p.1 p.2) []) ∧
      ∃ r, activeRowsFor (([([1], 5), ([2], 6)] : List (Bytes × Nat)).foldl
          (fun acc p => dbStoreCredentials acc "a1" .twitter p.1 p.2) []) "a1" .twitter = [r] ∧
        r.credentials = [2]) ∧
    (wfStore (([([1], 5), ([2], 6)] : List (Bytes × Nat)).foldl
        (fun acc p => credUpsertUpdateInsert acc "a1" .twitter p.1 p.2) []) ∧
      ∃ r, activeRowsFor (([([1], 5), ([2], 6)] : List (Bytes × Nat)).foldl
          (fun acc p => credUpsertUpdateInsert acc "a1" .twitter p.1 p.2) []) "a1" .twitter = [r] ∧
        r.credentials = [2]) :=
  C1_storeCredentials_last_writer_wins [] "a1" .twitter [([1], 5), ([2], 6)] [2] 6
    (by intro a s; simp [rowsFor]) (by intro r hr; simp [rowsFor] at hr) (by rfl)

/-- Claim C10: revoking credentials for any service other than twitter
in the plugin-connections `AuthService` performs no store operation:
the store is returned unchanged, so a subsequent `getConnectionStatus`
for the pair still reports the prior connection state. -/
theorem C10_revoke_non_twitter_noop (st : Store) (a : String) (s : ServiceName)
    (hs : s ≠ .twitter) (now : Nat) :
    pcRevokeCredentials st a s = st ∧
    pcGetConnectionStatus (pcRevokeCredentials st a s) a s now
      = pcGetConnectionStatus st a s now := by
  have h1 : pcRevokeCredentials st a s = st := by
    unfold pcRevokeCredentials
    rw [if_pos hs]
  exact ⟨h1, by rw [h1]⟩

/-- Claim C10 witness: revoking discord leaves a concrete store (one
active discord row) untouched and its status unchanged. -/
theorem C10_witness :
    pcRevokeCredentials [⟨"a1", .discord, [1], true, 0⟩] "a1" .discord
      = [⟨"a1", .discord, [1], true, 0⟩] ∧
    pcGetConnectionStatus (pcRevokeCredentials [⟨"a1", .discord, [1], true, 0⟩] "a1" .discord)
        "a1" .discord 5
      = pcGetConnectionStatus [⟨"a1", .discord, [1], true, 0⟩] "a1" .discord 5 :=
  C10_revoke_non_twitter_noop [⟨"a1", .discord, [1], true, 0⟩] "a1" .discord (by decide) 5

theorem authGetCredentials_cases (C : BlockCipher) (key : Option Bytes)
    (db : Option Store) (a : String) (s : ServiceName) :
    (db = none → authGetCredentials C key db a s = none) ∧
    (∀ st, db = some st → findActive st a s = none →
      authGetCredentials C key db a s = none) ∧
    (∀ st r, db = some st → findActive st a s = some r →
      decrypt C key r.credentials = none →
      authGetCredentialsTry C key db a s = .error "Decryption failed" ∧
      authGetCredentials C key db a s = none) ∧
    (∀ st r pt, db = some st → findActive st a s = some r →
      decrypt C key r.credentials = some pt →
      authGetCredentials C key db a s = some pt) := by
  refine ⟨?_, ?_, ?_, ?_⟩
  · rintro rfl
    rfl
  · rintro st rfl hf
    simp [authGetCredentials, authGetCredentialsTry, hf]
  · rintro st r rfl hf hd
    constructor <;> simp [authGetCredentials, authGetCredentialsTry, hf, hd]
  · rintro st r pt rfl hf hd
    simp [authGetCredentials, authGetCredentialsTry, hf, hd]

theorem authGetCredentials_some (C : BlockCipher) (key : Option Bytes)
    (db : Option Store) (a : String) (s : ServiceName) (pt : Bytes)
    (h : authGetCredentials C key db a s = some pt) :
    ∃ st r, db = some st ∧ findActive st a s = some r ∧
      decrypt C key r.credentials = some pt := by
  unfold authGetCredentials authGetCredentialsTry at h
  rcases db with _ | st
  · simp at h
  · rcases hf : findActive st a s with _ | r
    · simp only [hf] at h
      exact absurd h (by simp)
    · rcases hd : decrypt C key r.credentials with _ | pt2
      · simp only [hf, hd] at h
        exact absurd h (by simp)
      · simp only [hf, hd] at h
        exact ⟨st, r, rfl, hf, by rw [hd, h]⟩

theorem authGetConnStatus_fields (C : BlockCipher) (key : Option Bytes)
    (db : Option Store) (a : String) (s : ServiceName) (now : Nat) :
    (authGetConnectionStatus C key db a s now).isConnected
      = (authGetCredentials C key db a s).isSome ∧
    (authGetConnectionStatus C key db a s now).serviceName = s := by
  unfold authGetConnectionStatus
  rcases h : authGetCredentials C key db a s <;> simp [h]

/-- Claim C8: `getConnectionStatus` is a total function (it never
throws), reports `isConnected = true` exactly when an active credential
record was found and its payload decrypted, and reports
`isConnected = false` whenever the store is unavailable. -/
theorem C8_getConnectionStatus_fail_safe (C : BlockCipher) (key : Option Bytes)
    (db : Option Store) (a : String) (s : ServiceName) (now : Nat) :
    ((authGetConnectionStatus C key db a s now).isConnected = true ↔
      ∃ st r pt, db = some st ∧ findActive st a s = some r ∧
        decrypt C key r.credentials = some pt) ∧
    (db = none → (authGetConnectionStatus C key db a s now).isConnected = false) ∧
    (authGetConnectionStatus C key db a s now).serviceName = s := by
  obtain ⟨hic, hsn⟩ := authGetConnStatus_fields C key db a s now
  refine ⟨?_, ?_, hsn⟩
  · rw [hic]
    constructor
    · intro h
      rcases hopt : authGetCredentials C key db a s with _ | pt
      · rw [hopt] at h
        simp at h
      · obtain ⟨st, r, h1, h2, h3⟩ := authGetCredentials_some C key db a s pt hopt
        exact ⟨st, r, pt, h1, h2, h3⟩
    · rintro ⟨st, r, pt, h1, h2, h3⟩
      rw [(authGetCredentials_cases C key db a s).2.2.2 st r pt h1 h2 h3]
      rfl
  · rintro rfl
    rw [hic, (authGetCredentials_cases C key none a s).1 rfl]
    rfl

/-- Claim C8 witness: the theorem at an unavailable store. -/
theorem C8_witness :
    (((authGetConnectionStatus idCipher none none "a1" .twitter 0).isConnected = true ↔
      ∃ st r pt, (none : Option Store) = some st ∧ findActive st "a1" .twitter = some r ∧
        decrypt idCipher none r.credentials = some pt)) ∧
    ((none : Option Store) = none →
      (authGetConnectionStatus idCipher none none "a1" .twitter 0).isConnected = false) ∧
    (authGetConnectionStatus idCipher none none "a1" .twitter 0).serviceName = .twitter :=
  C8_getConnectionStatus_fail_safe idCipher none none "a1" .twitter 0

/-- Claim C2 counterexample: a concrete store holds an active record
for the pair whose stored ciphertext fails to decrypt; the try-block of
`getCredentials` raises the `DecryptionError`, but the method's catch
clause swallows it and returns null — exactly the "not found" result —
so the error is not propagated to the caller, contrary to the claim. -/
theorem C2_counterexample :
    findActive [⟨"a1", .twitter, [], true, 0⟩] "a1" .twitter
      = some ⟨"a1", .twitter, [], true, 0⟩ ∧
    authGetCredentialsTry idCipher (some (List.replicate 32 97))
      (some [⟨"a1", .twitter, [], true, 0⟩]) "a1" .twitter = .error "Decryption failed" ∧
    authGetCredentials idCipher (some (List.replicate 32 97))
      (some [⟨"a1", .twitter, [], true, 0⟩]) "a1" .twitter = none :=
  ⟨rfl, rfl, rfl⟩

/-- Claim C2 (amended): `getCredentials` returns null exactly when the
store is unavailable, no active record exists, or the stored ciphertext
fails to decrypt: the `DecryptionError` raised inside the try block is
caught and collapsed to the same null as "not found" rather than being
propagated; a decryptable active record's payload is returned. -/
theorem C2_getCredentials_conflates_errors (C : BlockCipher) (key : Option Bytes)
    (db : Option Store) (a : String) (s : ServiceName) :
    (authGetCredentials C key db a s = none ↔
      (db = none ∨ ∃ st, db = some st ∧ (findActive st a s = none ∨
        ∃ r, findActive st a s = some r ∧ decrypt C key r.credentials = none))) ∧
    (∀ st r, db = some st → findActive st a s = some r →
      decrypt C key r.credentials = none →
      authGetCredentialsTry C key db a s = .error "Decryption failed" ∧
      authGetCredentials C key db a s = none) ∧
    (∀ st r pt, db = some st → findActive st a s = some r →
      decrypt C key r.credentials = some pt →
      authGetCredentials C key db a s = some pt) := by
  have hc := authGetCredentials_cases C key db a s
  refine ⟨?_, hc.2.2.1, hc.2.2.2⟩
  constructor
  · intro h
    rcases db with _ | st
    · exact Or.inl rfl
    · rcases hf : findActive st a s with _ | r
      · exact Or.inr ⟨st, rfl, Or.inl hf⟩
      · rcases hd : decrypt C key r.credentials with _ | pt
        · exact Or.inr ⟨st, rfl, Or.inr ⟨r, hf, hd⟩⟩
        · rw [hc.2.2.2 st r pt rfl hf hd] at h
          exact absurd h (by simp)
  · rintro (rfl | ⟨st, rfl, hf | ⟨r, hf, hd⟩⟩)
    · exact hc.1 rfl
    · exact hc.2.1 st rfl hf
    · exact (hc.2.2.1 st r rfl hf hd).2

/-- Claim C2 witness: the amended theorem applied at the concrete
store of the counterexample, with the decryption-failure hypothesis
discharged by evaluation. -/
theorem C2_witness :
    authGetCredentialsTry idCipher (some (List.replicate 32 97))
      (some [⟨"a2", .twitter, [58], true, 0⟩]) "a2" .twitter = .error "Decryption failed" ∧
    authGetCredentials idCipher (some (List.replicate 32 97))
      (some [⟨"a2", .twitter, [58], true, 0⟩]) "a2" .twitter = none :=
  (C2_getCredentials_conflates_errors idCipher (some (List.replicate 32 97))
      (some [⟨"a2", .twitter, [58], true, 0⟩]) "a2" .twitter).2.1
    [⟨"a2", .twitter, [58], true, 0⟩] ⟨"a2", .twitter, [58], true, 0⟩ rfl rfl (by decide)

/-! ## Session cache lemmas -/

theorem temp_key_ne_session_key (x y : String) : ("temp:" ++ x) ≠ ("session:" ++ y) := by
  intro h
  have hd : ("temp:" ++ x).data = ("session:" ++ y).data := congrArg String.data h
  rw [String.data_append, String.data_append] at hd
  rw [show ("temp:" : String).data = ['t', 'e', 'm', 'p', ':'] from rfl,
    show ("session:" : String).data = ['s', 'e', 's', 's', 'i', 'o', 'n', ':'] from rfl] at hd
  simp at hd

/-- Claim C4 (amended): a session created at time T and validated at
time T' is returned exactly when T' ≤ expiresAt = T + 15 minutes, and
null is returned after that (and for an absent session).  In
particular validation at T+14min59s succeeds and at T+15min01s returns
null; but because the code's expiry comparison is `new Date() >
expiresAt` (and the cache's staleness check `now - start > ttl`), a
validation at *exactly* T+15min still returns the session — the
boundary instant is valid, not invalid as "strictly before expiresAt"
would require. -/
theorem C4_validateOAuthSession_expiry (uuid agentId : String) (service : ServiceName)
    (state : String) (returnUrl : Option String) (T T' : Nat) (h : T ≤ T') :
    ((validateOAuthSession (createOAuthSession [] uuid agentId service state returnUrl T)
        agentId service state T').fst
      = if T' ≤ T + 900000
        then some ⟨uuid, agentId, service, state, "pending", none, none, returnUrl,
          T + 15 * 60 * 1000, T⟩
        else none) ∧
    (validateOAuthSession [] agentId service state T').fst = none := by
  constructor
  · have hget : cacheGet (createOAuthSession [] uuid agentId service state returnUrl T)
        (sessionCacheKey agentId service state) T'
        = if T' ≤ T + 900000 then some (.sess ⟨uuid, agentId, service, state, "pending",
            none, none, returnUrl, T + 15 * 60 * 1000, T⟩) else none := by
      unfold createOAuthSession cacheSet cacheGet
      simp only [List.filter_nil, List.find?, beq_self_eq_true, cacheTTL]
    unfold validateOAuthSession
    simp only [hget]
    by_cases hc : T' ≤ T + 900000
    · rw [if_pos hc, if_pos hc]
      have hne : ¬(T + 15 * 60 * 1000 < T') := by omega
      simp [hne]
    · rw [if_neg hc, if_neg hc]
  · rfl

/-- Claim C4 witness: at concrete times, validation of a session
created at T = 0 succeeds at 899000 ms (T+14min59s) and returns null
at 901000 ms (T+15min01s). -/
theorem C4_witness :
    ((validateOAuthSession (createOAuthSession [] "u" "a" .twitter "s" none 0)
        "a" .twitter "s" 899000).fst
      = some ⟨"u", "a", .twitter, "s", "pending", none, none, none, 15 * 60 * 1000, 0⟩) ∧
    ((validateOAuthSession (createOAuthSession [] "u" "a" .twitter "s" none 0)
        "a" .twitter "s" 901000).fst = none) := by
  have h1 := (C4_validateOAuthSession_expiry "u" "a" .twitter "s" none 0 899000 (by omega)).1
  have h2 := (C4_validateOAuthSession_expiry "u" "a" .twitter "s" none 0 901000 (by omega)).1
  rw [if_pos (by omega)] at h1
  rw [if_neg (by omega)] at h2
  exact ⟨h1, h2⟩

/-- Claim C4 counterexample: at exactly T+15min (= expiresAt) the
validation still returns the session although the current time is not
strictly before `expiresAt`, so "returns the session exactly when now
is strictly before expiresAt" is false at this instant. -/
theorem C4_counterexample :
    (validateOAuthSession (createOAuthSession [] "u" "a" .twitter "s" none 0)
        "a" .twitter "s" 900000).fst
      = some ⟨"u", "a", .twitter, "s", "pending", none, none, none, 900000, 0⟩ ∧
    ¬((900000 : Nat) < 900000) := by
  exact ⟨by decide, by omega⟩

/-- Claim C5 (amended): the current initiate handler
(src/src/routes/twitter-auth.ts) answers every successful request with
exactly the authorization URL, the state and the request token, and
never the request-token secret; the legacy handler of
src/unnamed/part_003, however, additionally returns
`oauth_token_secret` in the response body, so for it the claim fails. -/
theorem C5_initiate_response_fields (cfg : String × String) (link : AuthLink)
    (agentId : String) (returnUrl : Option String) (state uuid : String)
    (st : SysState) (now : Nat) :
    ((twitterInitiate (some cfg) (.ok link) (some agentId) returnUrl state uuid st now).fst
      = .ok [("authUrl", link.url), ("state", state), ("oauth_token", link.oauth_token)]) ∧
    (∀ fields, (twitterInitiate (some cfg) (.ok link) (some agentId) returnUrl state uuid st now).fst
        = .ok fields → "oauth_token_secret" ∉ fields.map Prod.fst) ∧
    (twitterInitiateLegacy (some cfg) (.ok link) (some agentId) state
      = .ok [("authUrl", link.url), ("state", state), ("oauth_token", link.oauth_token),
             ("oauth_token_secret", link.oauth_token_secret)]) := by
  refine ⟨rfl, ?_, rfl⟩
  intro fields hf
  have : fields = [("authUrl", link.url), ("state", state), ("oauth_token", link.oauth_token)] := by
    have h2 : InitiateRes.ok fields
        = .ok [("authUrl", link.url), ("state", state), ("oauth_token", link.oauth_token)] := by
      rw [← hf]
      rfl
    injection h2
  rw [this]
  simp

/-- Claim C5 witness: the amended theorem at concrete configuration,
provider answer and request. -/
theorem C5_witness :
    ((twitterInitiate (some ("ck", "cs")) (.ok ⟨"https://t.co/auth", "tok1", "sec1"⟩)
        (some "a1") none "st1" "id1" ⟨[], []⟩ 0).fst
      = .ok [("authUrl", "https://t.co/auth"), ("state", "st1"), ("oauth_token", "tok1")]) ∧
    ("oauth_token_secret" ∉
      [("authUrl", "https://t.co/auth"), ("state", "st1"), ("oauth_token", "tok1")].map Prod.fst) ∧
    (twitterInitiateLegacy (some ("ck", "cs")) (.ok ⟨"https://t.co/auth", "tok1", "sec1"⟩)
        (some "a1") "st1"
      = .ok [("authUrl", "https://t.co/auth"), ("state", "st1"), ("oauth_token", "tok1"),
             ("oauth_token_secret", "sec1")]) :=
  ⟨(C5_initiate_response_fields ("ck", "cs") ⟨"https://t.co/auth", "tok1", "sec1"⟩
      "a1" none "st1" "id1" ⟨[], []⟩ 0).1,
   (C5_initiate_response_fields ("ck", "cs") ⟨"https://t.co/auth", "tok1", "sec1"⟩
      "a1" none "st1" "id1" ⟨[], []⟩ 0).2.1 _
     (C5_initiate_response_fields ("ck", "cs") ⟨"https://t.co/auth", "tok1", "sec1"⟩
      "a1" none "st1" "id1" ⟨[], []⟩ 0).1,
   (C5_initiate_response_fields ("ck", "cs") ⟨"https://t.co/auth", "tok1", "sec1"⟩
      "a1" none "st1" "id1" ⟨[], []⟩ 0).2.2⟩

/-- Claim C5 counterexample: a concrete successful initiate-connection
request served by the legacy handler of src/unnamed/part_003 returns a
response that *does* contain the provider-issued request-token secret
(`oauth_token_secret`) in its JSON body. -/
theorem C5_counterexample :
    twitterInitiateLegacy (some ("consumer", "secret"))
        (.ok ⟨"https://api.twitter.com/oauth/authorize", "reqtok", "reqsec"⟩)
        (some "agent1") "state1"
      = .ok [("authUrl", "https://api.twitter.com/oauth/authorize"), ("state", "state1"),
             ("oauth_token", "reqtok"), ("oauth_token_secret", "reqsec")] ∧
    ("oauth_token_secret", "reqsec")
      ∈ [("authUrl", "https://api.twitter.com/oauth/authorize"), ("state", "state1"),
         ("oauth_token", "reqtok"), ("oauth_token_secret", "reqsec")] := by
  exact ⟨rfl, by simp⟩

theorem strHead_append (s t : String) (c : Char) (h : s.data.head? = some c) :
    (s ++ t).data.head? = some c := by
  rw [String.data_append]
  cases hs : s.data with
  | nil => rw [hs] at h; simp at h
  | cons a l =>
    rw [hs] at h
    simp only [List.head?_cons] at h
    simp [h]

theorem sessionKey_head (a : String) (s : ServiceName) (st : String) :
    (sessionCacheKey a s st).data.head? = some 's' := by
  unfold sessionCacheKey
  apply strHead_append
  apply strHead_append
  apply strHead_append
  apply strHead_append
  rfl

theorem temp_ne_sessionKey (x a st : String) (s : ServiceName) :
    ("temp:" ++ x) ≠ sessionCacheKey a s st := by
  intro h
  have h1 : ("temp:" ++ x).data.head? = some 't' := strHead_append _ _ _ rfl
  rw [h, sessionKey_head a s st] at h1
  exact absurd (Option.some_inj.mp h1) (by decide)

/-- Claim C3: within one handshake (session and temp secret cached at
initiate time T, callbacks while the session is unexpired), a
successful first callback deletes the temporary request-token secret,
so a second callback with the same request token and state does not
complete again but fails with the "Temporary credentials not found or
expired" (MissingTempCredentials) response. -/
theorem C3_callback_consumes_temp_secret (C : BlockCipher) (encKey : Option Bytes)
    (iv : Bytes) (ck cs url token secret verifier state uuid agentId : String)
    (returnUrl : Option String) (grant : TwitterGrant) (store0 : Store)
    (T t1 t2 : Nat) (hT1 : T ≤ t1) (h1 : t1 < T + 900000) (h12 : t1 ≤ t2)
    (h2 : t2 ≤ T + 900000) :
    (twitterCallback C encKey iv (some (ck, cs)) (.ok grant)
        ⟨some token, some verifier, some state, some agentId⟩
        (twitterInitiate (some (ck, cs)) (.ok ⟨url, token, secret⟩) (some agentId)
          returnUrl state uuid ⟨[], store0⟩ T).snd t1).fst.isError = false ∧
    (twitterCallback C encKey iv (some (ck, cs)) (.ok grant)
        ⟨some token, some verifier, some state, some agentId⟩
        (twitterCallback C encKey iv (some (ck, cs)) (.ok grant)
          ⟨some token, some verifier, some state, some agentId⟩
          (twitterInitiate (some (ck, cs)) (.ok ⟨url, token, secret⟩) (some agentId)
            returnUrl state uuid ⟨[], store0⟩ T).snd t1).snd t2).fst
      = .badRequest "Temporary credentials not found or expired" := by
  have hne : ("temp:" ++ (agentId ++ ":twitter:temp:" ++ token))
      ≠ sessionCacheKey agentId .twitter state := temp_ne_sessionKey _ _ _ _
  have hbeq_ts : (("temp:" ++ (agentId ++ ":twitter:temp:" ++ token))
      == sessionCacheKey agentId .twitter state) = false :=
    beq_eq_false_iff_ne.mpr hne
  have hbeq_st : ((sessionCacheKey agentId .twitter state)
      == ("temp:" ++ (agentId ++ ":twitter:temp:" ++ token))) = false :=
    beq_eq_false_iff_ne.mpr (Ne.symm hne)
  have e1 : t1 ≤ T + 1000 * 60 * 15 := by omega
  have e2 : ¬(T + 15 * 60 * 1000 < t1) := by omega
  have e3 : t1 < T + 15 * 60 * 1000 := by omega
  have e4 : t2 ≤ t1 + 1000 * 60 * 15 := by omega
  have e5 : ¬(T + 15 * 60 * 1000 < t2) := by omega
  have hinit : (twitterInitiate (some (ck, cs)) (.ok ⟨url, token, secret⟩) (some agentId)
      returnUrl state uuid ⟨[], store0⟩ T).snd
      = ⟨[⟨"temp:" ++ (agentId ++ ":twitter:temp:" ++ token), .temp ⟨secret, agentId, T⟩, T⟩,
          ⟨sessionCacheKey agentId .twitter state,
           .sess ⟨uuid, agentId, .twitter, state, "pending", none, none, returnUrl,
             T + 15 * 60 * 1000, T⟩, T⟩], store0⟩ := by
    unfold twitterInitiate createOAuthSession storeTempCredentials cacheSet
    simp [hbeq_st]
  have hval1 : validateOAuthSession
      [⟨"temp:" ++ (agentId ++ ":twitter:temp:" ++ token), .temp ⟨secret, agentId, T⟩, T⟩,
       ⟨sessionCacheKey agentId .twitter state,
        .sess ⟨uuid, agentId, .twitter, state, "pending", none, none, returnUrl,
          T + 15 * 60 * 1000, T⟩, T⟩] agentId .twitter state t1
      = (some ⟨uuid, agentId, .twitter, state, "pending", none, none, returnUrl,
          T + 15 * 60 * 1000, T⟩,
         [⟨"temp:" ++ (agentId ++ ":twitter:temp:" ++ token), .temp ⟨secret, agentId, T⟩, T⟩,
          ⟨sessionCacheKey agentId .twitter state,
           .sess ⟨uuid, agentId, .twitter, state, "pending", none, none, returnUrl,
             T + 15 * 60 * 1000, T⟩, T⟩]) := by
    unfold validateOAuthSession cacheGet
    simp [List.find?, hbeq_ts, beq_self_eq_true, cacheTTL, e1, e2]
  have hget1 : getTempCredentials
      [⟨"temp:" ++ (agentId ++ ":twitter:temp:" ++ token), .temp ⟨secret, agentId, T⟩, T⟩,
       ⟨sessionCacheKey agentId .twitter state,
        .sess ⟨uuid, agentId, .twitter, state, "pending", none, none, returnUrl,
          T + 15 * 60 * 1000, T⟩, T⟩] (agentId ++ ":twitter:temp:" ++ token) t1
      = some ⟨secret, agentId, T⟩ := by
    unfold getTempCredentials cacheGet
    simp [List.find?, beq_self_eq_true, cacheTTL, e1]
  have hdel : deleteTempCredentials
      [⟨"temp:" ++ (agentId ++ ":twitter:temp:" ++ token), .temp ⟨secret, agentId, T⟩, T⟩,
       ⟨sessionCacheKey agentId .twitter state,
        .sess ⟨uuid, agentId, .twitter, state, "pending", none, none, returnUrl,
          T + 15 * 60 * 1000, T⟩, T⟩] (agentId ++ ":twitter:temp:" ++ token)
      = [⟨sessionCacheKey agentId .twitter state,
          .sess ⟨uuid, agentId, .twitter, state, "pending", none, none, returnUrl,
            T + 15 * 60 * 1000, T⟩, T⟩] := by
    unfold deleteTempCredentials cacheDelete
    simp [hbeq_st]
  have hupd : updateOAuthSession
      [⟨sessionCacheKey agentId .twitter state,
        .sess ⟨uuid, agentId, .twitter, state, "pending", none, none, returnUrl,
          T + 15 * 60 * 1000, T⟩, T⟩] agentId .twitter state
      (fun s => { s with status := "authorized", authorizationCode := some verifier }) t1
      = [⟨sessionCacheKey agentId .twitter state,
          .sess ⟨uuid, agentId, .twitter, state, "authorized", some verifier, none, returnUrl,
            T + 15 * 60 * 1000, T⟩, t1⟩] := by
    unfold updateOAuthSession cacheGet cacheSet
    simp [List.find?, beq_self_eq_true, cacheTTL, e1, e3]
  have hcb1 : twitterCallback C encKey iv (some (ck, cs)) (.ok grant)
      ⟨some token, some verifier, some state, some agentId⟩
      ⟨[⟨"temp:" ++ (agentId ++ ":twitter:temp:" ++ token), .temp ⟨secret, agentId, T⟩, T⟩,
        ⟨sessionCacheKey agentId .twitter state,
         .sess ⟨uuid, agentId, .twitter, state, "pending", none, none, returnUrl,
           T + 15 * 60 * 1000, T⟩, T⟩], store0⟩ t1
      = ((match returnUrl with
          | some u =>
            if strContains u "/goals" then
              CallbackRes.popupHtml grant.userId grant.username grant.displayName
            else CallbackRes.redirect (u ++ "?success=true&service=twitter")
          | none => CallbackRes.jsonSuccess grant.userId grant.username grant.displayName),
         ⟨[⟨sessionCacheKey agentId .twitter state,
            .sess ⟨uuid, agentId, .twitter, state, "authorized", some verifier, none, returnUrl,
              T + 15 * 60 * 1000, T⟩, t1⟩],
          credUpsertUpdateInsert store0 agentId .twitter
            (encrypt C encKey iv (serializeTwitterCredentials ck cs
              grant.accessToken grant.accessSecret grant.userId grant.username)) t1⟩) := by
    unfold twitterCallback
    simp only [hval1, hget1, hdel, hupd]
    cases returnUrl <;> rfl
  have hval2 : validateOAuthSession
      [⟨sessionCacheKey agentId .twitter state,
        .sess ⟨uuid, agentId, .twitter, state, "authorized", some verifier, none, returnUrl,
          T + 15 * 60 * 1000, T⟩, t1⟩] agentId .twitter state t2
      = (some ⟨uuid, agentId, .twitter, state, "authorized", some verifier, none, returnUrl,
          T + 15 * 60 * 1000, T⟩,
         [⟨sessionCacheKey agentId .twitter state,
           .sess ⟨uuid, agentId, .twitter, state, "authorized", some verifier, none, returnUrl,
             T + 15 * 60 * 1000, T⟩, t1⟩]) := by
    unfold validateOAuthSession cacheGet
    simp [List.find?, beq_self_eq_true, cacheTTL, e4, e5]
  have hget2 : getTempCredentials
      [⟨sessionCacheKey agentId .twitter state,
        .sess ⟨uuid, agentId, .twitter, state, "authorized", some verifier, none, returnUrl,
          T + 15 * 60 * 1000, T⟩, t1⟩] (agentId ++ ":twitter:temp:" ++ token) t2
      = none := by
    unfold getTempCredentials cacheGet
    simp [List.find?, hbeq_st]
  rw [hinit, hcb1]
  constructor
  · cases returnUrl with
    | none => rfl
    | some u =>
      show (if strContains u "/goals" then
        CallbackRes.popupHtml grant.userId grant.username grant.displayName
        else CallbackRes.redirect (u ++ "?success=true&service=twitter")).isError = false
      by_cases hg : strContains u "/goals" <;> simp [hg, CallbackRes.isError]
  · unfold twitterCallback
    simp only [hval2, hget2]

/-- Claim C3 witness: the theorem at a fully concrete handshake
(initiate at 0 ms, callbacks at 1000 ms and 2000 ms). -/
theorem C3_witness :
    (twitterCallback idCipher none [] (some ("ck", "cs"))
        (.ok ⟨"at", "as", "uid", "un", "dn"⟩)
        ⟨some "tok", some "ver", some "st", some "ag"⟩
        (twitterInitiate (some ("ck", "cs")) (.ok ⟨"u", "tok", "sec"⟩) (some "ag")
          none "st" "uuid" ⟨[], []⟩ 0).snd 1000).fst.isError = false ∧
    (twitterCallback idCipher none [] (some ("ck", "cs"))
        (.ok ⟨"at", "as", "uid", "un", "dn"⟩)
        ⟨some "tok", some "ver", some "st", some "ag"⟩
        (twitterCallback idCipher none [] (some ("ck", "cs"))
          (.ok ⟨"at", "as", "uid", "un", "dn"⟩)
          ⟨some "tok", some "ver", some "st", some "ag"⟩
          (twitterInitiate (some ("ck", "cs")) (.ok ⟨"u", "tok", "sec"⟩) (some "ag")
            none "st" "uuid" ⟨[], []⟩ 0).snd 1000).snd 2000).fst
      = .badRequest "Temporary credentials not found or expired" :=
  C3_callback_consumes_temp_secret idCipher none [] "ck" "cs" "u" "tok" "sec" "ver"
    "st" "uuid" "ag" none ⟨"at", "as", "uid", "un", "dn"⟩ [] 0 1000 2000
    (by omega) (by omega) (by omega) (by omega)

end MascotAgent
